import Mathlib

/-
  Verification of the scatter renderer's light-transport core.

  Shallow embedding conventions:
  * f64 scalars are modelled as exact rationals wherever the embedded code is
    square-root free, and as real numbers where a square root occurs
    (math.rs::coordinate_system).
  * nalgebra Vector3 / Pnt3 / the Spectrum RGB triple are modelled by Vec3.
  * Trait objects (BxDF, Light, Material, RayCast geometry) are modelled as
    structures of functions.
  * A Rust panic (unwrap/expect on None) is modelled by Except.error ().
-/

namespace Scatter

/-- Three-component vector over a scalar type; models nalgebra Vector3 and
Pnt3 as well as the RGB Spectrum (spectrum.rs is not present under src/;
Modelled from the spec: Spectrum is the 3-component RGB value with
component-wise arithmetic). -/
structure Vec3 (α : Type) where
  x : α
  y : α
  z : α
deriving DecidableEq

instance [Add α] : Add (Vec3 α) := ⟨fun a b => ⟨a.x + b.x, a.y + b.y, a.z + b.z⟩⟩

instance [Sub α] : Sub (Vec3 α) := ⟨fun a b => ⟨a.x - b.x, a.y - b.y, a.z - b.z⟩⟩

instance [Neg α] : Neg (Vec3 α) := ⟨fun a => ⟨-a.x, -a.y, -a.z⟩⟩

instance [Zero α] : Zero (Vec3 α) := ⟨⟨0, 0, 0⟩⟩

instance [Mul α] : HMul (Vec3 α) α (Vec3 α) := ⟨fun v s => ⟨v.x * s, v.y * s, v.z * s⟩⟩

instance [Div α] : HDiv (Vec3 α) α (Vec3 α) := ⟨fun v s => ⟨v.x / s, v.y / s, v.z / s⟩⟩

/-- na::dot. -/
def dot [Mul α] [Add α] (a b : Vec3 α) : α :=
  a.x * b.x + a.y * b.y + a.z * b.z

/-- na::cross. -/
def cross [Mul α] [Sub α] (a b : Vec3 α) : Vec3 α :=
  ⟨a.y * b.z - a.z * b.y, a.z * b.x - a.x * b.z, a.x * b.y - a.y * b.x⟩

/-- nalgebra component_mul. -/
def cmul [Mul α] (a b : Vec3 α) : Vec3 α :=
  ⟨a.x * b.x, a.y * b.y, a.z * b.z⟩

/-- The Spectrum RGB radiance value (see the header comment). -/
abbrev Spectrum := Vec3 ℚ

/-- bxdf.rs: the BxDFType bitflags, one Bool per bit. -/
structure BxDFType where
  reflection : Bool
  transmission : Bool
  diffuse : Bool
  glossy : Bool
  specular : Bool
deriving DecidableEq

/-- Bitwise and of two flag sets. -/
def BxDFType.inter (a b : BxDFType) : BxDFType :=
  ⟨a.reflection && b.reflection, a.transmission && b.transmission,
   a.diffuse && b.diffuse, a.glossy && b.glossy, a.specular && b.specular⟩

/-- Bitwise or of two flag sets. -/
def BxDFType.union (a b : BxDFType) : BxDFType :=
  ⟨a.reflection || b.reflection, a.transmission || b.transmission,
   a.diffuse || b.diffuse, a.glossy || b.glossy, a.specular || b.specular⟩

/-- bitflags set difference, the `-` operator of the bitflags crate. -/
def BxDFType.sdiff (a b : BxDFType) : BxDFType :=
  ⟨a.reflection && !b.reflection, a.transmission && !b.transmission,
   a.diffuse && !b.diffuse, a.glossy && !b.glossy, a.specular && !b.specular⟩

/-- bitflags intersects: some bit is shared. -/
def BxDFType.intersects (a b : BxDFType) : Bool :=
  (a.reflection && b.reflection) || (a.transmission && b.transmission) ||
  (a.diffuse && b.diffuse) || (a.glossy && b.glossy) || (a.specular && b.specular)

def BSDF_REFLECTION : BxDFType := ⟨true, false, false, false, false⟩

def BSDF_TRANSMISSION : BxDFType := ⟨false, true, false, false, false⟩

def BSDF_DIFFUSE : BxDFType := ⟨false, false, true, false, false⟩

def BSDF_GLOSSY : BxDFType := ⟨false, false, false, true, false⟩

def BSDF_SPECULAR : BxDFType := ⟨false, false, false, false, true⟩

def BSDF_ALL_TYPES : BxDFType := (BSDF_DIFFUSE.union BSDF_GLOSSY).union BSDF_SPECULAR

def BSDF_ALL_REFLECTION : BxDFType := BSDF_REFLECTION.union BSDF_ALL_TYPES

def BSDF_ALL_TRANSMISSION : BxDFType := BSDF_TRANSMISSION.union BSDF_ALL_TYPES

def BSDF_ALL : BxDFType := BSDF_ALL_REFLECTION.union BSDF_ALL_TRANSMISSION

/-- The BxDF trait, as the record of the members the claims need: the
deterministic evaluation `f` and the immutable type bitmask. -/
structure BxDF where
  f : Vec3 ℚ → Vec3 ℚ → Spectrum
  bxdfType : BxDFType

/-- bxdf.rs BxDF::matches_flags: (self.bxdf_type() & flags) == self.bxdf_type(). -/
def BxDF.matches_flags (b : BxDF) (flags : BxDFType) : Bool :=
  decide (b.bxdfType.inter flags = b.bxdfType)

/-- The IEEE-754 double value of std::f64::consts::FRAC_1_PI. -/
def FRAC_1_PI : ℚ := 5734161139222659 / 2 ^ 54

/-- bxdf.rs Lambertian (colour field plus its BxDF impl):
f is colour / pi regardless of directions, type DIFFUSE | REFLECTION. -/
def Lambertian (colour : Spectrum) : BxDF :=
  { f := fun _ _ => colour * FRAC_1_PI
    bxdfType := BSDF_DIFFUSE.union BSDF_REFLECTION }

/-- bxdf.rs BSDF: the shading normal, the stored world-to-local rotation
(computed in the source from coordinate_system over f64; kept abstract as the
stored field), and the owned BxDF list. -/
structure BSDF where
  normal : Vec3 ℚ
  worldToLocal : Vec3 ℚ → Vec3 ℚ
  bxdfs : List BxDF

/-- bxdf.rs BSDF::f: transform into the local frame, mask out TRANSMISSION
when wo and wi are on the same side of the surface (else REFLECTION), and sum
f over the BxDFs matching the masked flags. The source calls bxdf.f(&wi, &wo)
with the incident direction first. -/
def BSDF.f (bsdf : BSDF) (woWorld wiWorld : Vec3 ℚ) (flags : BxDFType) : Spectrum :=
  let wi := bsdf.worldToLocal wiWorld
  let wo := bsdf.worldToLocal woWorld
  let flags2 :=
    if dot woWorld bsdf.normal * dot wiWorld bsdf.normal > 0 then
      flags.sdiff BSDF_TRANSMISSION
    else
      flags.sdiff BSDF_REFLECTION
  (bsdf.bxdfs.filter (fun b => b.matches_flags flags2)).foldl (fun acc b => acc + b.f wi wo) 0

/-- ray.rs Ray: origin, direction and recursion depth. -/
structure Ray where
  orig : Vec3 ℚ
  dir : Vec3 ℚ
  depth : ℤ

/-- The result of ncollide's toi_and_normal_and_uv query used by
scene.rs::get_nearest: hit parameter, surface normal and optional UVs. -/
structure RawIntersection where
  toi : ℚ
  normal : Vec3 ℚ
  uvs : Option (ℚ × ℚ)

/-- scene.rs SceneNode, as the members get_nearest and trace consume: the
narrow-phase geometry query (geom.toi_and_normal_and_uv_with_transform_and_ray
with the node's transform pre-applied) and Material::get_bsdf. -/
structure SceneNode where
  geom : Ray → Option RawIntersection
  material : Vec3 ℚ → (ℚ × ℚ) → BSDF

/-- light.rs Light trait: sample returns (incident radiance, incident
direction) at a point; shadow is the occlusion test (the source passes the
scene to shadow; the scene argument is pre-applied here because Scene owns
its lights). -/
structure Light where
  sample : Vec3 ℚ → Spectrum × Vec3 ℚ
  shadow : Vec3 ℚ → Bool

/-- scene.rs Scene: the light list and the node set. The DBVT broad phase is
modelled as returning every node; pruned nodes are exactly those whose
narrow-phase query would return None. -/
structure Scene where
  lights : List Light
  world : List SceneNode

/-- scene.rs Intersection. -/
structure Intersection where
  point : Vec3 ℚ
  normal : Vec3 ℚ
  bsdf : BSDF

/-- The epsilon threshold of scene.rs::get_nearest (0.00000001). -/
def EPS_TOI : ℚ := 1 / 100000000

/-- The IEEE-754 value of std::f64::MAX, the initial nearest_toi. -/
def F64_MAX : ℚ := (2 ^ 53 - 1) * 2 ^ 971

/-- The loop of scene.rs::get_nearest, with the mutable accumulator passed
explicitly: the current nearest node, toi, normal and (already unwrapped)
uvs. Except.error () models the panic of isect.uvs.unwrap(). -/
def get_nearest_loop (ray : Ray) :
    List SceneNode → Option SceneNode → ℚ → Vec3 ℚ → (ℚ × ℚ) →
    Except Unit (Option (SceneNode × ℚ × Vec3 ℚ × (ℚ × ℚ)))
  | [], nn, nt, nnorm, nuvs => .ok (nn.map (fun n => (n, nt, nnorm, nuvs)))
  | node :: rest, nn, nt, nnorm, nuvs =>
    match node.geom ray with
    | some isect =>
      if isect.toi > EPS_TOI ∧ isect.toi < nt then
        match isect.uvs with
        | some uv => get_nearest_loop ray rest (some node) isect.toi isect.normal uv
        | none => .error ()
      else get_nearest_loop ray rest nn nt nnorm nuvs
    | none => get_nearest_loop ray rest nn nt nnorm nuvs

/-- scene.rs::get_nearest. -/
def get_nearest (ray : Ray) (nodes : List SceneNode) :
    Except Unit (Option (SceneNode × ℚ × Vec3 ℚ × (ℚ × ℚ))) :=
  get_nearest_loop ray nodes none F64_MAX 0 (0, 0)

/-- scene.rs Scene::trace: run get_nearest over the candidate nodes and build
the Intersection from the winner. -/
def Scene.trace (scene : Scene) (ray : Ray) : Except Unit (Option Intersection) :=
  match get_nearest ray scene.world with
  | .error e => .error e
  | .ok none => .ok none
  | .ok (some (node, toi, normal, uvs)) =>
    .ok (some ⟨ray.orig + ray.dir * toi, normal, node.material normal uvs⟩)

/-- The same selection loop as get_nearest_loop but without the uvs unwrap
(the accumulator keeps the optional uvs): it computes which candidate the
loop accepts last, i.e. the nearest accepted hit. -/
def select_nearest_loop (ray : Ray) :
    List SceneNode → Option SceneNode → ℚ → Vec3 ℚ → Option (ℚ × ℚ) →
    Option (SceneNode × ℚ × Vec3 ℚ × Option (ℚ × ℚ))
  | [], nn, nt, nnorm, nuvs => nn.map (fun n => (n, nt, nnorm, nuvs))
  | node :: rest, nn, nt, nnorm, nuvs =>
    match node.geom ray with
    | some isect =>
      if isect.toi > EPS_TOI ∧ isect.toi < nt then
        select_nearest_loop ray rest (some node) isect.toi isect.normal isect.uvs
      else select_nearest_loop ray rest nn nt nnorm nuvs
    | none => select_nearest_loop ray rest nn nt nnorm nuvs

/-- The nearest accepted hit of get_nearest, uvs left optional. -/
def select_nearest (ray : Ray) (nodes : List SceneNode) :
    Option (SceneNode × ℚ × Vec3 ℚ × Option (ℚ × ℚ)) :=
  select_nearest_loop ray nodes none F64_MAX 0 none

/-- The list of nodes whose narrow-phase query reports a hit, paired with the
reported hit. -/
def ray_hits (ray : Ray) (nodes : List SceneNode) : List (SceneNode × RawIntersection) :=
  nodes.filterMap (fun n => (n.geom ray).map (fun i => (n, i)))

/-- f64::max. -/
def fmax (a b : ℚ) : ℚ := if a ≤ b then b else a

/-- f64::min. -/
def fmin (a b : ℚ) : ℚ := if a ≤ b then a else b

/-- f64::abs. -/
def fabs (a : ℚ) : ℚ := if a < 0 then -a else a

theorem fmax_eq_max (a b : ℚ) : fmax a b = max a b := (max_def a b).symm

theorem fmin_eq_min (a b : ℚ) : fmin a b = min a b := (min_def a b).symm

theorem fabs_eq_abs (a : ℚ) : fabs a = |a| := by
  rw [fabs, abs]
  rcases lt_trichotomy a 0 with h | h | h
  · rw [if_pos h]
    exact (max_eq_right (by linarith)).symm
  · simp [h]
  · rw [if_neg (not_lt.mpr h.le)]
    exact (max_eq_left (by linarith)).symm

/-- integrator.rs::sample_light: sample the light, evaluate the BSDF, and add
f (.) li * dot(normal, wi) unless the radiance or f is zero or the point is
occluded. The scene argument mirrors the source signature; occlusion is
queried through the light (see Light). -/
def sample_light (light : Light) (wo : Vec3 ℚ) (isect : Intersection) (_scene : Scene)
    (flags : BxDFType) : Spectrum :=
  let s := light.sample isect.point
  let li := s.1
  let wi := s.2
  if li = 0 then 0
  else
    let bsdf := isect.bsdf
    let f := bsdf.f wo wi flags
    if f = 0 ∨ light.shadow isect.point then 0
    else cmul f li * dot isect.normal wi

/-- integrator.rs::sample_one_light: zero lights yield zero radiance,
otherwise one rng-chosen light (the draw is modelled by the index k, reduced
mod the light count as rng.choose picks uniformly in range) scaled by the
light count. -/
def sample_one_light (wo : Vec3 ℚ) (isect : Intersection) (scene : Scene) (k : ℕ) : Spectrum :=
  let nlights := scene.lights.length
  if h : nlights = 0 then 0
  else
    let light := scene.lights.get ⟨k % nlights, Nat.mod_lt _ (Nat.pos_of_ne_zero h)⟩
    sample_light light wo isect scene (BSDF_ALL.sdiff BSDF_SPECULAR) * (nlights : ℚ)

/-- integrator.rs::sample_all_lights: fold of sample_light over the lights. -/
def sample_all_lights (wo : Vec3 ℚ) (isect : Intersection) (scene : Scene) : Spectrum :=
  (scene.lights.map (fun l => sample_light l wo isect scene (BSDF_ALL.sdiff BSDF_SPECULAR))).foldl
    (fun acc c => acc + c) 0

/-- integrator.rs SAMPLE_DEPTH. -/
def SAMPLE_DEPTH : ℤ := 3

/-- integrator.rs::luminance (the f64 literals 0.2126, 0.7152, 0.0722 taken
at their decimal values). -/
def luminance (c : Spectrum) : ℚ :=
  c.x * (2126 / 10000) + c.y * (7152 / 10000) + c.z * (722 / 10000)

/-- Lines 197-204 of integrator.rs::path_bounce, the Russian-roulette step:
given the bounce counter, the rng draw and the current throughput, either
pass the throughput through unchanged (bounce <= 3), terminate the path
(none), or divide the surviving throughput by the continue probability. -/
def roulette_step (bounce : ℤ) (draw : ℚ) (throughput : Spectrum) : Option Spectrum :=
  if bounce > 3 then
    let continue_probability := fmin (1 / 2) (luminance throughput)
    if draw > continue_probability then none
    else some (throughput / continue_probability)
  else some throughput

/-- The stateful collaborators of path_bounce, abstracted as oracles indexed
by the bounce counter (each recursion level has a distinct bounce value):
the sample_one_light call, the bsdf.sample_f call (value, direction, pdf,
optional flags), the rng.next_f64 draw of the roulette, and the scene.trace
of the continuation ray. -/
structure PathEnv where
  sample_one_light : ℤ → Spectrum
  sample_f : ℤ → Spectrum × Vec3 ℚ × ℚ × Option BxDFType
  next_f64 : ℤ → ℚ
  trace : ℤ → Option Intersection

/-- integrator.rs::path_bounce. The fuel argument models the call stack: a
none result means either the fuel ran out before the recursion finished or
the flags.unwrap() panicked; some l is a normal return. The continuation ray
has direction wi (its offset origin only feeds the abstracted trace). -/
def path_bounce (env : PathEnv) (depth : ℤ) :
    Vec3 ℚ → Intersection → ℤ → Spectrum → Bool → ℕ → Option Spectrum
  | _, _, _, _, _, 0 => none
  | rayDir, isect, bounce, throughput, _spec, fuel + 1 =>
    let _wo := -rayDir
    let l : Spectrum := 0
    let l := if bounce < SAMPLE_DEPTH
      then l + cmul throughput (env.sample_one_light bounce)
      else l + cmul throughput (env.sample_one_light bounce)
    let r := env.sample_f bounce
    let f := r.1
    let wi := r.2.1
    let pdf := r.2.2.1
    if f = 0 ∨ pdf = 0 then some l
    else
      match r.2.2.2 with
      | none => none
      | some flags =>
        let specular_bounce := flags.intersects BSDF_SPECULAR
        let throughput := cmul throughput f * (fabs (dot wi isect.normal) / pdf)
        match roulette_step bounce (env.next_f64 bounce) throughput with
        | none => some l
        | some throughput =>
          if bounce = depth then some l
          else
            match env.trace bounce with
            | some isect2 =>
              (path_bounce env depth wi isect2 (bounce + 1) throughput specular_bounce fuel).map
                (fun c => l + c)
            | none => some (l + 0)

/-- integrator.rs PathTraced::integrate: start path_bounce at bounce 0 with
throughput (1,1,1) and no specular bounce. -/
def PathTraced.integrate (env : PathEnv) (depth : ℤ) (rayDir : Vec3 ℚ)
    (isect : Intersection) (fuel : ℕ) : Option Spectrum :=
  path_bounce env depth rayDir isect 0 ⟨1, 1, 1⟩ false fuel

/-- BSDF::sample_f pairs a nonzero pdf with Some flags (its None branch
returns pdf 0); an oracle is well formed when it respects that. -/
def PathEnv.wf (env : PathEnv) : Prop :=
  ∀ i : ℤ, (env.sample_f i).1 = 0 ∨ (env.sample_f i).2.2.1 = 0 ∨ (env.sample_f i).2.2.2.isSome

/-- bxdf.rs::cos_theta of a vector in the local shading frame. -/
def cos_theta (v : Vec3 ℚ) : ℚ := v.z

/-- bxdf.rs::sin_theta2. -/
def sin_theta2 (v : Vec3 ℚ) : ℚ := fmax 0 (1 - cos_theta v * cos_theta v)

/-- bxdf.rs SpecularTransmission: transmission scale, the two refractive
indices, and the stored FresnelDielectric abstracted as its evaluate
function (whose body takes an f64 square root). -/
structure SpecularTransmission where
  t : Spectrum
  etai : ℚ
  etat : ℚ
  fresnel : ℚ → Spectrum

/-- bxdf.rs SpecularTransmission::sample_f (the rng arguments are unused in
the source): detect total internal reflection, otherwise build the
transmitted direction and weight. -/
def SpecularTransmission.sample_f (s : SpecularTransmission) (wo : Vec3 ℚ) :
    Spectrum × Vec3 ℚ × ℚ :=
  let entering := cos_theta wo > 0
  let etai := if entering then s.etai else s.etat
  let etat := if entering then s.etat else s.etai
  let sini2 := sin_theta2 wo
  let eta := etai / etat
  let sint2 := eta * eta * sini2
  if sint2 > 1 then (0, 0, 0)
  else
    let cost := if entering then -(fmax 0 (1 - sint2)) else fmax 0 (1 - sint2)
    let sint_over_sini := eta
    let wi : Vec3 ℚ := ⟨sint_over_sini * -wo.x, sint_over_sini * -wo.y, cost⟩
    let fr := s.fresnel (cos_theta wo)
    let transmitted := cmul ((⟨1, 1, 1⟩ : Spectrum) - fr) s.t / fabs (cos_theta wi)
    (transmitted, wi, 1)

/-- main.rs::render: xchunk_size = width / nthreads (u32 division). -/
def xchunk_size (width nthreads : ℕ) : ℕ := width / nthreads

/-- main.rs::render: worker i starts at column i * xchunk_size. -/
def worker_xstart (width nthreads i : ℕ) : ℕ := i * xchunk_size width nthreads

/-- Spacing of the f32 grid at a u32-ranged natural above 2 ^ 24: values
with 2 ^ e <= n < 2 ^ (e + 1) sit on multiples of 2 ^ (e - 23) (24-bit
significand). Inputs here never reach 2 ^ 32. -/
def f32_ulp (n : ℕ) : ℕ :=
  if n < 2 ^ 25 then 2
  else if n < 2 ^ 26 then 4
  else if n < 2 ^ 27 then 8
  else if n < 2 ^ 28 then 16
  else if n < 2 ^ 29 then 32
  else if n < 2 ^ 30 then 64
  else if n < 2 ^ 31 then 128
  else 256

/-- The Rust cast n as f32 for a u32 value n, as the integer the resulting
float denotes: exact up to 2 ^ 24, otherwise rounded to the nearest multiple
of the local grid spacing, ties to the even multiple (IEEE-754
round-to-nearest-even). -/
def u32_to_f32 (n : ℕ) : ℕ :=
  if n ≤ 2 ^ 24 then n
  else
    let ulp := f32_ulp n
    let q := n / ulp
    let r := n % ulp
    if 2 * r < ulp then q * ulp
    else if ulp < 2 * r then (q + 1) * ulp
    else if q % 2 = 0 then q * ulp else (q + 1) * ulp

/-- The Rust cast m as u32 of a nonnegative integral f32 value: truncation,
saturating at u32::MAX. -/
def f32_to_u32 (m : ℕ) : ℕ := min m (2 ^ 32 - 1)

/-- main.rs::render line 64: xend = f32::min(width as f32,
(xstart + xchunk_size) as f32) as u32 — the min is taken after the f32
round-trip, which rounds values above 2 ^ 24 to the f32 grid. -/
def worker_xend (width nthreads i : ℕ) : ℕ :=
  f32_to_u32 (min (u32_to_f32 width)
    (u32_to_f32 (worker_xstart width nthreads i + xchunk_size width nthreads)))

/-- Column x is assigned to some worker of the spawn loop. -/
def column_assigned (width nthreads x : ℕ) : Prop :=
  ∃ i < nthreads, worker_xstart width nthreads i ≤ x ∧ x < worker_xend width nthreads i

instance (width nthreads x : ℕ) : Decidable (column_assigned width nthreads x) := by
  unfold column_assigned
  infer_instance

/-- Pixel (x, y) is sent over the channel by some worker. -/
def pixel_sent (width nthreads height x y : ℕ) : Prop :=
  column_assigned width nthreads x ∧ y < height

/-- The coordinator's reconstruction loop hits a missing pixel-map entry (the
expect panics) at some (x, y) with y < height and x < width. -/
def reconstruct_panics (width height nthreads : ℕ) : Prop :=
  ∃ y < height, ∃ x < width, ¬ pixel_sent width nthreads height x y

/-- math.rs::coordinate_system, over the reals because of the square roots:
branch on which axis dominates, normalize the picked orthogonal vector, and
complete the frame with the cross product. Returns (tangent, binormal) as
consumed by BSDF::world_to_local_from_normal. -/
noncomputable def coordinate_system (v1 : Vec3 ℝ) : Vec3 ℝ × Vec3 ℝ :=
  let v2 : Vec3 ℝ :=
    if |v1.x| > |v1.y| then
      let invlen := 1 / Real.sqrt (v1.x * v1.x + v1.z * v1.z)
      ⟨-v1.z * invlen, 0, v1.x * invlen⟩
    else
      let invlen := 1 / Real.sqrt (v1.y * v1.y + v1.z * v1.z)
      ⟨0, v1.z * invlen, -v1.y * invlen⟩
  let v3 := cross v1 v2
  (v2, v3)

theorem Vec3.ext_iff2 {α : Type} (a b : Vec3 α) :
    a = b ↔ a.x = b.x ∧ a.y = b.y ∧ a.z = b.z := by
  cases a
  cases b
  simp [Vec3.mk.injEq]

section Vec3Lemmas

variable {α : Type} [CommRing α]

theorem vadd_def (a b : Vec3 α) : a + b = ⟨a.x + b.x, a.y + b.y, a.z + b.z⟩ := rfl

theorem vsub_def (a b : Vec3 α) : a - b = ⟨a.x - b.x, a.y - b.y, a.z - b.z⟩ := rfl

theorem vneg_def (a : Vec3 α) : -a = ⟨-a.x, -a.y, -a.z⟩ := rfl

theorem vsmul_def (a : Vec3 α) (s : α) : a * s = ⟨a.x * s, a.y * s, a.z * s⟩ := rfl

theorem vdiv_def {β : Type} [Div β] (a : Vec3 β) (s : β) :
    a / s = ⟨a.x / s, a.y / s, a.z / s⟩ := rfl

theorem vzero_x {β : Type} [Zero β] : (0 : Vec3 β).x = 0 := rfl

theorem vzero_y {β : Type} [Zero β] : (0 : Vec3 β).y = 0 := rfl

theorem vzero_z {β : Type} [Zero β] : (0 : Vec3 β).z = 0 := rfl

theorem vzero_def : (0 : Vec3 α) = ⟨0, 0, 0⟩ := rfl

theorem vadd_assoc (a b c : Vec3 α) : a + b + c = a + (b + c) := by
  simp [vadd_def, add_assoc]

theorem vadd_comm (a b : Vec3 α) : a + b = b + a := by
  simp [vadd_def]
  refine ⟨add_comm _ _, add_comm _ _, add_comm _ _⟩

theorem vadd_zero (a : Vec3 α) : a + 0 = a := by
  simp [vadd_def, vzero_def]

theorem zero_vadd (a : Vec3 α) : 0 + a = a := by
  simp [vadd_def, vzero_def]

theorem vsmul_one (a : Vec3 α) : a * (1 : α) = a := by
  simp [vsmul_def]

theorem vsmul_zero_right (a : Vec3 α) : a * (0 : α) = 0 := by
  simp [vsmul_def, vzero_def]

theorem vsub_zero (a : Vec3 α) : a - 0 = a := by
  simp [vsub_def, vzero_def]

theorem dot_comm (a b : Vec3 α) : dot a b = dot b a := by
  simp [dot]
  ring

/-- The scalar triple product with a repeated first factor vanishes. -/
theorem dot_cross_self_left (u w : Vec3 α) : dot u (cross u w) = 0 := by
  simp [dot, cross]
  ring

/-- The scalar triple product with a repeated second factor vanishes. -/
theorem dot_cross_self_right (u w : Vec3 α) : dot w (cross u w) = 0 := by
  simp [dot, cross]
  ring

/-- Lagrange identity for the cross product. -/
theorem dot_cross_cross (u w : Vec3 α) :
    dot (cross u w) (cross u w) = dot u u * dot w w - dot u w * dot u w := by
  simp [dot, cross]
  ring

/-- The vector triple product w x (u x w) = u (w.w) - w (u.w). -/
theorem cross_cross_self (u w : Vec3 α) :
    cross w (cross u w) = u * dot w w - w * dot u w := by
  simp [cross, dot, vsmul_def, vsub_def, Vec3.mk.injEq]
  refine ⟨by ring, by ring, by ring⟩

end Vec3Lemmas

/-
  Theorems, one claim at a time.
-/

/-- Concrete SpecularTransmission for the evaluation below: glass etai 1,
etat 3/2; the Fresnel value is irrelevant to the returned direction. -/
def st_example : SpecularTransmission := ⟨⟨1, 1, 1⟩, 1, 3 / 2, fun _ => 0⟩

/-- The outgoing direction (3/5, 0, 4/5), a unit vector entering the glass. -/
def st_example_wo : Vec3 ℚ := ⟨3 / 5, 0, 4 / 5⟩

/-- C2: at wo = (3/5,0,4/5), etai = 1, etat = 3/2 there is no total internal
reflection (the pdf is 1, not the TIR zero), yet the returned direction is
(-2/5, 0, -21/25) with squared norm 541/625, not a unit vector: its z
component is -(1 - sin2 theta t) instead of the Snell cosine
-sqrt(1 - sin2 theta t), because sample_f omits the square root that its
sibling FresnelDielectric::evaluate takes. -/
theorem specular_transmission_missing_sqrt :
    (st_example.sample_f st_example_wo).2.2 = 1
  ∧ (st_example.sample_f st_example_wo).2.1 = ⟨-(2 / 5), 0, -(21 / 25)⟩
  ∧ dot (st_example.sample_f st_example_wo).2.1 (st_example.sample_f st_example_wo).2.1 = 541 / 625
  ∧ (541 / 625 : ℚ) ≠ 1 := by
  have h : st_example.sample_f st_example_wo =
      (⟨25 / 21, 25 / 21, 25 / 21⟩, ⟨-(2 / 5), 0, -(21 / 25)⟩, 1) := by
    simp only [SpecularTransmission.sample_f, st_example, st_example_wo, cos_theta, sin_theta2,
      fmax, fabs]
    norm_num [cmul, vsub_def, vdiv_def, vzero_x, vzero_y, vzero_z, Vec3.mk.injEq]
  rw [h]
  norm_num [dot, Vec3.mk.injEq]

/-- C6: the roulette step of path_bounce leaves the throughput unchanged for
bounce <= 3; for bounce > 3 it terminates the path exactly when the draw
exceeds min(1/2, 0.2126 R + 0.7152 G + 0.0722 B) and divides a survivor's
throughput by that continue probability. -/
theorem russian_roulette_spec (bounce : ℤ) (draw : ℚ) (t : Spectrum) :
    (bounce ≤ 3 → roulette_step bounce draw t = some t)
  ∧ (3 < bounce →
      (draw > fmin (1 / 2)
            (t.x * (2126 / 10000) + t.y * (7152 / 10000) + t.z * (722 / 10000)) →
          roulette_step bounce draw t = none)
    ∧ (draw ≤ fmin (1 / 2)
            (t.x * (2126 / 10000) + t.y * (7152 / 10000) + t.z * (722 / 10000)) →
          roulette_step bounce draw t =
            some (t / fmin (1 / 2)
              (t.x * (2126 / 10000) + t.y * (7152 / 10000) + t.z * (722 / 10000))))) := by
  refine ⟨fun h => ?_, fun h => ⟨fun hd => ?_, fun hd => ?_⟩⟩
  · simp [roulette_step, not_lt.mpr h]
  · simp only [roulette_step, luminance, if_pos h]
    rw [if_pos hd]
  · simp only [roulette_step, luminance, if_pos h]
    rw [if_neg (not_lt.mpr hd)]

/-- Witness for C6 at bounce 2: the roulette passes the throughput through. -/
theorem russian_roulette_spec_witness :
    roulette_step 2 0 ⟨1, 1, 1⟩ = some ⟨1, 1, 1⟩ :=
  (russian_roulette_spec 2 0 ⟨1, 1, 1⟩).1 (by decide)

/-- C7: sample_one_light on a scene with an empty light list returns zero
radiance (no panic path is reachable), and on a non-empty list returns the
rng-chosen light's sample_light contribution scaled by the light count. -/
theorem sample_one_light_spec (wo : Vec3 ℚ) (isect : Intersection) (scene : Scene) (k : ℕ) :
    (scene.lights = [] → sample_one_light wo isect scene k = 0)
  ∧ (∀ h : scene.lights ≠ [],
      sample_one_light wo isect scene k =
        sample_light (scene.lights.get ⟨k % scene.lights.length,
            Nat.mod_lt _ (List.length_pos.mpr h)⟩) wo isect scene
          (BSDF_ALL.sdiff BSDF_SPECULAR) * (scene.lights.length : ℚ)) := by
  constructor
  · intro h
    simp [sample_one_light, h]
  · intro h
    have hlen : scene.lights.length ≠ 0 := (List.length_pos.mpr h).ne'
    simp only [sample_one_light]
    rw [dif_neg hlen]

/-- Concrete light for the C7 witness. -/
def c7_light : Light := ⟨fun _ => (⟨1, 1, 1⟩, ⟨0, 0, 1⟩), fun _ => false⟩

/-- Concrete intersection for the C7 witness. -/
def c7_isect : Intersection := ⟨0, ⟨0, 0, 1⟩, ⟨⟨0, 0, 1⟩, fun v => v, []⟩⟩

/-- Concrete one-light scene for the C7 witness. -/
def c7_scene : Scene := ⟨[c7_light], []⟩

/-- Witness for C7: both the empty-scene branch and the one-light branch. -/
theorem sample_one_light_spec_witness :
    sample_one_light ⟨0, 0, 1⟩ c7_isect ⟨[], []⟩ 0 = 0
  ∧ sample_one_light ⟨0, 0, 1⟩ c7_isect c7_scene 0 =
      sample_light (c7_scene.lights.get ⟨0 % c7_scene.lights.length,
          Nat.mod_lt _ (List.length_pos.mpr (List.cons_ne_nil _ _))⟩) ⟨0, 0, 1⟩ c7_isect c7_scene
        (BSDF_ALL.sdiff BSDF_SPECULAR) * (c7_scene.lights.length : ℚ) :=
  ⟨(sample_one_light_spec ⟨0, 0, 1⟩ c7_isect ⟨[], []⟩ 0).1 rfl,
   (sample_one_light_spec ⟨0, 0, 1⟩ c7_isect c7_scene 0).2 (List.cons_ne_nil _ _)⟩

/-- A BxDF matching flags with TRANSMISSION removed carries no TRANSMISSION
bit (matches_flags is the strict-subset test). -/
theorem matches_sdiff_trans (b : BxDF) (flags : BxDFType)
    (h : b.matches_flags (flags.sdiff BSDF_TRANSMISSION) = true) :
    b.bxdfType.transmission = false := by
  rw [BxDF.matches_flags, decide_eq_true_eq] at h
  have h2 := congrArg BxDFType.transmission h
  simpa [BxDFType.inter, BxDFType.sdiff, BSDF_TRANSMISSION] using h2.symm

/-- A BxDF matching flags with REFLECTION removed carries no REFLECTION
bit. -/
theorem matches_sdiff_refl (b : BxDF) (flags : BxDFType)
    (h : b.matches_flags (flags.sdiff BSDF_REFLECTION) = true) :
    b.bxdfType.reflection = false := by
  rw [BxDF.matches_flags, decide_eq_true_eq] at h
  have h2 := congrArg BxDFType.reflection h
  simpa [BxDFType.inter, BxDFType.sdiff, BSDF_REFLECTION] using h2.symm

/-- Pre-filtering by a predicate implied by p does not change a p-filter. -/
theorem filter_filter_of_imp {β : Type} (p q : β → Bool) (l : List β)
    (h : ∀ b, p b = true → q b = true) :
    (l.filter q).filter p = l.filter p := by
  rw [List.filter_filter]
  refine List.filter_congr ?_
  intro a _
  cases hp : p a
  · simp
  · simp [h a hp]

/-- C5: when wo and wi lie on the same side of the surface as the normal,
BSDF::f sums exactly as if every TRANSMISSION-flagged term had been removed
from the BxDF list; on opposite sides, as if every REFLECTION-flagged term
had been removed. -/
theorem bsdf_f_side_mask (bsdf : BSDF) (woW wiW : Vec3 ℚ) (flags : BxDFType) :
    (0 < dot woW bsdf.normal * dot wiW bsdf.normal →
      bsdf.f woW wiW flags =
        BSDF.f ⟨bsdf.normal, bsdf.worldToLocal,
          bsdf.bxdfs.filter (fun b => !b.bxdfType.transmission)⟩ woW wiW flags)
  ∧ (dot woW bsdf.normal * dot wiW bsdf.normal < 0 →
      bsdf.f woW wiW flags =
        BSDF.f ⟨bsdf.normal, bsdf.worldToLocal,
          bsdf.bxdfs.filter (fun b => !b.bxdfType.reflection)⟩ woW wiW flags) := by
  constructor
  · intro hgt
    simp only [BSDF.f, if_pos hgt]
    rw [filter_filter_of_imp _ _ _
      (fun b hb => by simp [matches_sdiff_trans b flags hb])]
  · intro hlt
    have hng : ¬ 0 < dot woW bsdf.normal * dot wiW bsdf.normal := not_lt.mpr hlt.le
    simp only [BSDF.f, if_neg hng]
    rw [filter_filter_of_imp _ _ _
      (fun b hb => by simp [matches_sdiff_refl b flags hb])]

/-- A TRANSMISSION|DIFFUSE term with nonzero f, for the C5 witness. -/
def c5_trans_bxdf : BxDF := ⟨fun _ _ => ⟨1, 0, 0⟩, BSDF_TRANSMISSION.union BSDF_DIFFUSE⟩

/-- A BSDF holding one reflection term and one transmission term. -/
def c5_bsdf : BSDF := ⟨⟨0, 0, 1⟩, fun v => v, [Lambertian ⟨1, 1, 1⟩, c5_trans_bxdf]⟩

/-- Witness for C5: wo and wi on the same side of the normal. -/
theorem bsdf_f_side_mask_witness :
    BSDF.f c5_bsdf ⟨0, 0, 1⟩ ⟨0, 0, 1⟩ BSDF_ALL =
      BSDF.f ⟨c5_bsdf.normal, c5_bsdf.worldToLocal,
        c5_bsdf.bxdfs.filter (fun b => !b.bxdfType.transmission)⟩ ⟨0, 0, 1⟩ ⟨0, 0, 1⟩ BSDF_ALL :=
  (bsdf_f_side_mask c5_bsdf ⟨0, 0, 1⟩ ⟨0, 0, 1⟩ BSDF_ALL).1 (by norm_num [dot, c5_bsdf])

/-- Light straight below the surface for the C1 counterexample: full radiance
from direction -Z, never occluded. -/
def c1_light : Light := ⟨fun _ => (⟨1, 1, 1⟩, ⟨0, 0, -1⟩), fun _ => false⟩

/-- Intersection with normal +Z and a single Lambertian term, identity local
frame. -/
def c1_isect : Intersection := ⟨0, ⟨0, 0, 1⟩, ⟨⟨0, 0, 1⟩, fun v => v, [Lambertian ⟨1, 1, 1⟩]⟩⟩

/-- One-light scene around the C1 counterexample. -/
def c1_scene : Scene := ⟨[c1_light], []⟩

/-- The BSDF at the C1 counterexample evaluates to the Lambertian albedo over
pi (wo below the surface, light below the horizon: same side, so the
REFLECTION-flagged Lambertian stays in the sum). -/
theorem c1_f_eval :
    c1_isect.bsdf.f ⟨0, 0, -1⟩ ⟨0, 0, -1⟩ (BSDF_ALL.sdiff BSDF_SPECULAR) =
      ⟨FRAC_1_PI, FRAC_1_PI, FRAC_1_PI⟩ := by
  simp only [c1_isect, BSDF.f, Lambertian, BxDF.matches_flags, BxDFType.inter, BxDFType.sdiff,
    BxDFType.union, BSDF_ALL, BSDF_ALL_REFLECTION, BSDF_ALL_TRANSMISSION, BSDF_ALL_TYPES,
    BSDF_DIFFUSE, BSDF_GLOSSY, BSDF_SPECULAR, BSDF_REFLECTION, BSDF_TRANSMISSION]
  norm_num [dot, List.filter, vsmul_def, vadd_def, vzero_x, vzero_y, vzero_z, Vec3.mk.injEq]

/-- C1 counterexample: a light strictly below the horizon (dot(N,wi) < 0),
unoccluded, with a nonzero BSDF value, contributes the negative value
f (.) Li * dot(N,wi) instead of the zero that the claimed max(0, dot(N,wi))
clamp would give. -/
theorem whitted_direct_cosine_unclamped :
    dot c1_isect.normal (c1_light.sample c1_isect.point).2 < 0
  ∧ c1_light.shadow c1_isect.point = false
  ∧ c1_isect.bsdf.f ⟨0, 0, -1⟩ (c1_light.sample c1_isect.point).2 (BSDF_ALL.sdiff BSDF_SPECULAR) ≠ 0
  ∧ sample_light c1_light ⟨0, 0, -1⟩ c1_isect c1_scene (BSDF_ALL.sdiff BSDF_SPECULAR) =
      ⟨-FRAC_1_PI, -FRAC_1_PI, -FRAC_1_PI⟩
  ∧ (⟨-FRAC_1_PI, -FRAC_1_PI, -FRAC_1_PI⟩ : Spectrum) ≠ 0 := by
  have hs : (c1_light.sample c1_isect.point).2 = ⟨0, 0, -1⟩ := rfl
  have hq : FRAC_1_PI ≠ 0 := by norm_num [FRAC_1_PI]
  refine ⟨?_, rfl, ?_, ?_, ?_⟩
  · rw [hs]
    norm_num [dot, c1_isect]
  · rw [hs, c1_f_eval]
    simp [Vec3.ext_iff2, vzero_x, hq]
  · simp only [sample_light, hs]
    rw [if_neg (by simp [c1_light, Vec3.ext_iff2, vzero_x, vzero_y, vzero_z])]
    rw [if_neg ?hc]
    case hc =>
      rw [c1_f_eval]
      simp [c1_light, Vec3.ext_iff2, vzero_x, hq]
    rw [c1_f_eval]
    show cmul ⟨FRAC_1_PI, FRAC_1_PI, FRAC_1_PI⟩ (⟨1, 1, 1⟩ : Spectrum) *
        dot c1_isect.normal (⟨0, 0, -1⟩ : Vec3 ℚ) = _
    norm_num [cmul, dot, c1_isect, vsmul_def, Vec3.mk.injEq]
  · simp [Vec3.ext_iff2, vzero_x, hq]

/-- C1 amended: for every light the added direct-lighting contribution is
f (.) Li * dot(N,wi) with the cosine factor not clamped; the contribution is
skipped (zero) when the sampled radiance is zero, when f is zero, or when the
light is occluded; and sample_all_lights folds exactly these per-light
contributions. -/
theorem sample_light_contribution (light : Light) (wo : Vec3 ℚ) (isect : Intersection)
    (scene : Scene) (flags : BxDFType) :
    ((light.sample isect.point).1 = 0 → sample_light light wo isect scene flags = 0)
  ∧ (isect.bsdf.f wo (light.sample isect.point).2 flags = 0 →
      sample_light light wo isect scene flags = 0)
  ∧ (light.shadow isect.point = true → sample_light light wo isect scene flags = 0)
  ∧ ((light.sample isect.point).1 ≠ 0 →
      isect.bsdf.f wo (light.sample isect.point).2 flags ≠ 0 →
      light.shadow isect.point = false →
      sample_light light wo isect scene flags =
        cmul (isect.bsdf.f wo (light.sample isect.point).2 flags)
          (light.sample isect.point).1 * dot isect.normal (light.sample isect.point).2)
  ∧ sample_all_lights wo isect scene =
      (scene.lights.map (fun l =>
        if (l.sample isect.point).1 = 0 then 0
        else
          if isect.bsdf.f wo (l.sample isect.point).2 (BSDF_ALL.sdiff BSDF_SPECULAR) = 0
              ∨ l.shadow isect.point then 0
          else
            cmul (isect.bsdf.f wo (l.sample isect.point).2 (BSDF_ALL.sdiff BSDF_SPECULAR))
              (l.sample isect.point).1 * dot isect.normal (l.sample isect.point).2)).foldl
        (fun acc c => acc + c) 0 := by
  refine ⟨fun h => ?_, fun h => ?_, fun h => ?_, fun h1 h2 h3 => ?_, rfl⟩
  · simp only [sample_light]
    rw [if_pos h]
  · simp only [sample_light]
    split
    · rfl
    · rw [if_pos (Or.inl h)]
  · simp only [sample_light]
    split
    · rfl
    · rw [if_pos (Or.inr h)]
  · simp only [sample_light]
    rw [if_neg h1, if_neg (not_or.mpr ⟨h2, by simp [h3]⟩)]

/-- Witness for C1 amended, at the counterexample configuration. -/
theorem sample_light_contribution_witness :
    sample_light c1_light ⟨0, 0, -1⟩ c1_isect c1_scene (BSDF_ALL.sdiff BSDF_SPECULAR) =
      cmul (c1_isect.bsdf.f ⟨0, 0, -1⟩ (c1_light.sample c1_isect.point).2
          (BSDF_ALL.sdiff BSDF_SPECULAR))
        (c1_light.sample c1_isect.point).1 * dot c1_isect.normal (c1_light.sample c1_isect.point).2 :=
  (sample_light_contribution c1_light ⟨0, 0, -1⟩ c1_isect c1_scene
      (BSDF_ALL.sdiff BSDF_SPECULAR)).2.2.2.1
    (by simp [c1_light, Vec3.ext_iff2, vzero_x, vzero_y, vzero_z])
    (by rw [show (c1_light.sample c1_isect.point).2 = ⟨0, 0, -1⟩ from rfl, c1_f_eval]
        simp [Vec3.ext_iff2, vzero_x]
        norm_num [FRAC_1_PI])
    rfl

/-- C9 counterexample: at width 33554440 with 3 threads (3 does not divide
the width), the f32 round-trip of main.rs:64 rounds worker 2's
xstart + xchunk_size = 33554439 (the claimed last unassigned column,
nthreads * (width / nthreads)) up to 33554440, so that trailing column IS
assigned to worker 2, every pixel is sent, and the coordinator's lookup
never panics: the code produces a complete image although nthreads does not
divide width. -/
theorem render_partition_f32_rounding :
    ¬ (3 ∣ 33554440)
  ∧ 33554439 = 3 * (33554440 / 3)
  ∧ column_assigned 33554440 3 33554439
  ∧ ¬ reconstruct_panics 33554440 1 3 := by
  have hxs0 : worker_xstart 33554440 3 0 = 0 := by decide
  have hxs1 : worker_xstart 33554440 3 1 = 11184813 := by decide
  have hxs2 : worker_xstart 33554440 3 2 = 22369626 := by decide
  have hxe0 : worker_xend 33554440 3 0 = 11184813 := by decide
  have hxe1 : worker_xend 33554440 3 1 = 22369626 := by decide
  have hxe2 : worker_xend 33554440 3 2 = 33554440 := by decide
  have hcover : ∀ x, x < 33554440 → column_assigned 33554440 3 x := by
    intro x hx
    by_cases h0 : x < 11184813
    · exact ⟨0, by norm_num, by rw [hxs0]; omega, by rw [hxe0]; omega⟩
    · by_cases h1 : x < 22369626
      · exact ⟨1, by norm_num, by rw [hxs1]; omega, by rw [hxe1]; omega⟩
      · exact ⟨2, by norm_num, by rw [hxs2]; omega, by rw [hxe2]; omega⟩
  refine ⟨by decide, by decide, hcover 33554439 (by norm_num), ?_⟩
  rintro ⟨y, hy, x, hx, hnp⟩
  exact hnp ⟨hcover x hx, hy⟩

/-- C9 amended: for image widths below 2 ^ 24 — where the f32 round-trip of
main.rs:64 is exact — the spawn loop covers exactly the columns below
nthreads * (width / nthreads), and the coordinator's reconstruction panics on
a missing pixel precisely when nthreads does not divide width (so a complete
image is produced only when it does). Above 2 ^ 24 the f32 rounding can
assign the trailing columns (see the rounding counterexample). -/
theorem render_partition (width height nthreads : ℕ) (hw : width < 2 ^ 24)
    (_hn : 0 < nthreads) (hh : 0 < height) :
    (∀ x, column_assigned width nthreads x ↔ x < nthreads * (width / nthreads))
  ∧ (reconstruct_panics width height nthreads ↔ ¬ nthreads ∣ width) := by
  have hchunkle : nthreads * (width / nthreads) ≤ width := by
    rw [mul_comm]
    exact Nat.div_mul_le_self width nthreads
  have hxend : ∀ i, i < nthreads → worker_xend width nthreads i =
      min width (worker_xstart width nthreads i + xchunk_size width nthreads) := by
    intro i hi
    have hle : worker_xstart width nthreads i + xchunk_size width nthreads ≤ width := by
      have h1 : worker_xstart width nthreads i + xchunk_size width nthreads =
          (i + 1) * xchunk_size width nthreads := by
        rw [worker_xstart, add_one_mul]
      rw [h1]
      calc (i + 1) * xchunk_size width nthreads
          ≤ nthreads * xchunk_size width nthreads := Nat.mul_le_mul_right _ hi
        _ ≤ width := by
            rw [xchunk_size, mul_comm]
            exact Nat.div_mul_le_self width nthreads
    have hwf : u32_to_f32 width = width := by
      rw [u32_to_f32, if_pos hw.le]
    have hxf : u32_to_f32 (worker_xstart width nthreads i + xchunk_size width nthreads) =
        worker_xstart width nthreads i + xchunk_size width nthreads := by
      rw [u32_to_f32, if_pos (le_of_lt (lt_of_le_of_lt hle hw))]
    rw [worker_xend, hwf, hxf, f32_to_u32]
    exact min_eq_left (le_trans (min_le_left _ _) (by omega))
  have hassign : ∀ x, column_assigned width nthreads x ↔ x < nthreads * (width / nthreads) := by
    intro x
    constructor
    · rintro ⟨i, hi, _hs, he⟩
      rw [hxend i hi] at he
      have h1 : x < (i + 1) * (width / nthreads) := by
        have h2 := lt_of_lt_of_le he (min_le_right _ _)
        calc x < worker_xstart width nthreads i + xchunk_size width nthreads := h2
          _ = (i + 1) * (width / nthreads) := by
              rw [worker_xstart, xchunk_size, add_one_mul]
      exact lt_of_lt_of_le h1 (Nat.mul_le_mul_right _ hi)
    · intro hx
      have hchunkpos : 0 < width / nthreads := by
        rcases Nat.eq_zero_or_pos (width / nthreads) with h | h
        · rw [h, mul_zero] at hx
          exact absurd hx (Nat.not_lt_zero x)
        · exact h
      have hidiv : x / (width / nthreads) < nthreads :=
        (Nat.div_lt_iff_lt_mul hchunkpos).mpr hx
      refine ⟨x / (width / nthreads), hidiv, ?_, ?_⟩
      · exact Nat.div_mul_le_self x (width / nthreads)
      · rw [hxend _ hidiv]
        refine lt_min (lt_of_lt_of_le hx hchunkle) ?_
        have h1 := (Nat.div_add_mod x (width / nthreads)).symm
        have h2 := Nat.mod_lt x hchunkpos
        calc x = width / nthreads * (x / (width / nthreads)) + x % (width / nthreads) := h1
          _ < width / nthreads * (x / (width / nthreads)) + width / nthreads :=
              Nat.add_lt_add_left h2 _
          _ = worker_xstart width nthreads (x / (width / nthreads)) +
              xchunk_size width nthreads := by
              rw [worker_xstart, xchunk_size, mul_comm]
  refine ⟨hassign, ?_, ?_⟩
  · rintro ⟨y, hy, x, hx, hnp⟩ hdvd
    apply hnp
    refine ⟨(hassign x).mpr ?_, hy⟩
    rwa [Nat.mul_div_cancel' hdvd]
  · intro hndvd
    refine ⟨0, hh, nthreads * (width / nthreads), ?_, ?_⟩
    · rcases Nat.lt_or_ge (nthreads * (width / nthreads)) width with h | h
      · exact h
      · exact absurd ⟨width / nthreads, (le_antisymm hchunkle h).symm⟩ hndvd
    · rintro ⟨ha, -⟩
      exact absurd ((hassign _).mp ha) (lt_irrefl _)

/-- Witness for C9 amended: width 10, height 2, 3 threads misses column 9
and the reconstruction panics. -/
theorem render_partition_witness : reconstruct_panics 10 2 3 :=
  (render_partition 10 2 3 (by decide) (by decide) (by decide)).2.mpr (by decide)

/-- Fuel bound for path_bounce: starting from any bounce between 0 and the
configured depth, fuel exceeding depth - bounce always suffices, for every
well-formed oracle (in particular for every Russian-roulette draw). -/
theorem path_bounce_isSome (env : PathEnv) (hwf : env.wf) (depth : ℤ) :
    ∀ (fuel : ℕ) (rayDir : Vec3 ℚ) (isect : Intersection) (bounce : ℤ) (t : Spectrum) (s : Bool),
      0 ≤ bounce → bounce ≤ depth → (depth - bounce).toNat < fuel →
      (path_bounce env depth rayDir isect bounce t s fuel).isSome := by
  intro fuel
  induction fuel with
  | zero =>
    intro _ _ _ _ _ _ _ hfuel
    omega
  | succ n ih =>
    intro rayDir isect bounce t s hb0 hbd hfuel
    simp only [path_bounce]
    split
    · simp
    next hfp =>
      cases hflags : (env.sample_f bounce).2.2.2 with
      | none =>
        rcases hwf bounce with h | h | h
        · exact absurd (Or.inl h) hfp
        · exact absurd (Or.inr h) hfp
        · rw [hflags] at h
          simp at h
      | some flags =>
        simp only
        cases hrr : roulette_step bounce (env.next_f64 bounce)
            (cmul t (env.sample_f bounce).1 *
              (fabs (dot (env.sample_f bounce).2.1 isect.normal) / (env.sample_f bounce).2.2.1)) with
        | none => simp
        | some thr =>
          simp only
          split
          · simp
          next hneq =>
            cases htrace : env.trace bounce with
            | some isect2 =>
              rw [Option.isSome_map']
              exact ih (env.sample_f bounce).2.1 isect2 (bounce + 1) thr
                (flags.intersects BSDF_SPECULAR) (by omega) (by omega) (by omega)
            | none => simp

/-- C3: PathTraced integration never recurses past the configured depth D:
for every oracle (any scene, any roulette draws) and every D at least 0, a
call stack of D + 1 frames (fuel greater than D) already returns a value, so
the bounce counter never exceeds D and the recursion terminates. -/
theorem path_traced_depth_bound (env : PathEnv) (depth : ℤ) (hwf : env.wf) (hD : 0 ≤ depth)
    (rayDir : Vec3 ℚ) (isect : Intersection) :
    ∀ fuel : ℕ, depth.toNat < fuel →
      (PathTraced.integrate env depth rayDir isect fuel).isSome := by
  intro fuel hfuel
  exact path_bounce_isSome env hwf depth fuel rayDir isect 0 ⟨1, 1, 1⟩ false le_rfl hD (by omega)

/-- A maximally reflective oracle for the C3 witness: every bounce samples a
specular mirror with pdf 1 and the continuation ray always hits geometry
(two facing mirrors). -/
def c3_env : PathEnv :=
  { sample_one_light := fun _ => ⟨1, 1, 1⟩
    sample_f := fun _ => (⟨1, 1, 1⟩, ⟨0, 0, 1⟩, 1, some (BSDF_REFLECTION.union BSDF_SPECULAR))
    next_f64 := fun _ => 0
    trace := fun _ => some ⟨0, ⟨0, 0, 1⟩, ⟨⟨0, 0, 1⟩, fun v => v, []⟩⟩ }

/-- Witness for C3 at depth 3 with fuel 4 on the mirror oracle. -/
theorem path_traced_depth_bound_witness :
    (PathTraced.integrate c3_env 3 ⟨0, 0, -1⟩ ⟨0, ⟨0, 0, 1⟩, ⟨⟨0, 0, 1⟩, fun v => v, []⟩⟩ 4).isSome :=
  path_traced_depth_bound c3_env 3 (fun _ => Or.inr (Or.inr rfl)) (by decide) _ _ 4 (by decide)

/-- ray_hits over a cons whose head hits. -/
theorem ray_hits_cons_some (ray : Ray) (node : SceneNode) (rest : List SceneNode)
    (isect : RawIntersection) (hg : node.geom ray = some isect) :
    ray_hits ray (node :: rest) = (node, isect) :: ray_hits ray rest := by
  simp [ray_hits, List.filterMap_cons, hg]

/-- ray_hits over a cons whose head misses. -/
theorem ray_hits_cons_none (ray : Ray) (node : SceneNode) (rest : List SceneNode)
    (hg : node.geom ray = none) :
    ray_hits ray (node :: rest) = ray_hits ray rest := by
  simp [ray_hits, List.filterMap_cons, hg]

/-- Characterization of the get_nearest loop: provided every candidate that
can be accepted (toi above the epsilon and below the running nearest) has
UVs, the loop either keeps its accumulator when no candidate qualifies, or
returns the qualifying candidate with the least toi. -/
theorem get_nearest_loop_spec (ray : Ray) :
    ∀ (nodes : List SceneNode) (nn : Option SceneNode) (nt : ℚ) (nnorm : Vec3 ℚ) (nuvs : ℚ × ℚ),
      (∀ p ∈ ray_hits ray nodes, EPS_TOI < p.2.toi → p.2.toi < nt → p.2.uvs.isSome) →
      ((∀ p ∈ ray_hits ray nodes, ¬(EPS_TOI < p.2.toi ∧ p.2.toi < nt)) →
          get_nearest_loop ray nodes nn nt nnorm nuvs =
            .ok (nn.map (fun n => (n, nt, nnorm, nuvs))))
      ∧ (∀ q ∈ ray_hits ray nodes, EPS_TOI < q.2.toi → q.2.toi < nt →
          ∃ p ∈ ray_hits ray nodes, ∃ uv, p.2.uvs = some uv ∧
            EPS_TOI < p.2.toi ∧ p.2.toi < nt ∧
            (∀ r ∈ ray_hits ray nodes, EPS_TOI < r.2.toi → r.2.toi < nt → p.2.toi ≤ r.2.toi) ∧
            get_nearest_loop ray nodes nn nt nnorm nuvs =
              .ok (some (p.1, p.2.toi, p.2.normal, uv))) := by
  intro nodes
  induction nodes with
  | nil =>
    intro nn nt nnorm nuvs _huvs
    refine ⟨fun _ => rfl, fun q hq => ?_⟩
    simp [ray_hits] at hq
  | cons node rest ih =>
    intro nn nt nnorm nuvs huvs
    cases hg : node.geom ray with
    | none =>
      have hhits := ray_hits_cons_none ray node rest hg
      rw [hhits] at huvs
      have ihr := ih nn nt nnorm nuvs huvs
      constructor
      · intro hnone
        rw [hhits] at hnone
        have h1 := ihr.1 hnone
        simpa only [get_nearest_loop, hg] using h1
      · intro q hq hq1 hq2
        rw [hhits] at hq
        obtain ⟨p, hp, uv, huv, hp1, hp2, hpmin, hploop⟩ := ihr.2 q hq hq1 hq2
        refine ⟨p, by rw [hhits]; exact hp, uv, huv, hp1, hp2, ?_, ?_⟩
        · intro r hr
          rw [hhits] at hr
          exact hpmin r hr
        · simpa only [get_nearest_loop, hg] using hploop
    | some isect =>
      have hhits := ray_hits_cons_some ray node rest isect hg
      by_cases hc : EPS_TOI < isect.toi ∧ isect.toi < nt
      · have hmemhead : (node, isect) ∈ ray_hits ray (node :: rest) := by
          rw [hhits]
          exact List.mem_cons_self _ _
        have huvhead := huvs (node, isect) hmemhead hc.1 hc.2
        obtain ⟨uv, huv⟩ : ∃ uv, isect.uvs = some uv := by
          cases h : isect.uvs with
          | none => rw [h] at huvhead; simp at huvhead
          | some v => exact ⟨v, rfl⟩
        have hred : get_nearest_loop ray (node :: rest) nn nt nnorm nuvs =
            get_nearest_loop ray rest (some node) isect.toi isect.normal uv := by
          simp only [get_nearest_loop, hg, if_pos hc, huv]
        have huvs2 : ∀ p ∈ ray_hits ray rest,
            EPS_TOI < p.2.toi → p.2.toi < isect.toi → p.2.uvs.isSome := by
          intro p hp h1 h2
          exact huvs p (by rw [hhits]; exact List.mem_cons_of_mem _ hp) h1 (h2.trans hc.2)
        have ihr := ih (some node) isect.toi isect.normal uv huvs2
        constructor
        · intro hnone
          exact absurd hc (hnone (node, isect) hmemhead)
        · intro q hq hq1 hq2
          by_cases hrest : ∃ p ∈ ray_hits ray rest, EPS_TOI < p.2.toi ∧ p.2.toi < isect.toi
          · obtain ⟨q2, hq2mem, hq2a, hq2b⟩ := hrest
            obtain ⟨p, hp, uvp, hpuv, hp1, hp2, hpmin, hploop⟩ := ihr.2 q2 hq2mem hq2a hq2b
            refine ⟨p, by rw [hhits]; exact List.mem_cons_of_mem _ hp, uvp, hpuv, hp1,
              hp2.trans hc.2, ?_, by rw [hred]; exact hploop⟩
            intro r hr hr1 hr2
            rw [hhits] at hr
            rcases List.mem_cons.mp hr with hr | hr
            · rw [hr]
              exact hp2.le
            · rcases le_or_lt isect.toi r.2.toi with h | h
              · exact hp2.le.trans h
              · exact hpmin r hr hr1 h
          · push_neg at hrest
            have hnone2 : ∀ p ∈ ray_hits ray rest, ¬(EPS_TOI < p.2.toi ∧ p.2.toi < isect.toi) := by
              intro p hp hand
              exact absurd hand.2 (not_lt.mpr (hrest p hp hand.1))
            have hloop := ihr.1 hnone2
            refine ⟨(node, isect), hmemhead, uv, huv, hc.1, hc.2, ?_, ?_⟩
            · intro r hr hr1 hr2
              rw [hhits] at hr
              rcases List.mem_cons.mp hr with hr | hr
              · rw [hr]
              · exact hrest r hr hr1
            · rw [hred, hloop]
              rfl
      · have hred : get_nearest_loop ray (node :: rest) nn nt nnorm nuvs =
            get_nearest_loop ray rest nn nt nnorm nuvs := by
          simp only [get_nearest_loop, hg, if_neg hc]
        have huvs2 : ∀ p ∈ ray_hits ray rest,
            EPS_TOI < p.2.toi → p.2.toi < nt → p.2.uvs.isSome := by
          intro p hp h1 h2
          exact huvs p (by rw [hhits]; exact List.mem_cons_of_mem _ hp) h1 h2
        have ihr := ih nn nt nnorm nuvs huvs2
        constructor
        · intro hnone
          have hnone2 : ∀ p ∈ ray_hits ray rest, ¬(EPS_TOI < p.2.toi ∧ p.2.toi < nt) := by
            intro p hp
            exact hnone p (by rw [hhits]; exact List.mem_cons_of_mem _ hp)
          rw [hred]
          exact ihr.1 hnone2
        · intro q hq hq1 hq2
          rw [hhits] at hq
          rcases List.mem_cons.mp hq with hq | hq
          · exact absurd ⟨by rw [hq] at hq1; exact hq1, by rw [hq] at hq2; exact hq2⟩ hc
          · obtain ⟨p, hp, uvp, hpuv, hp1, hp2, hpmin, hploop⟩ := ihr.2 q hq hq1 hq2
            refine ⟨p, by rw [hhits]; exact List.mem_cons_of_mem _ hp, uvp, hpuv, hp1, hp2, ?_,
              by rw [hred]; exact hploop⟩
            intro r hr hr1 hr2
            rw [hhits] at hr
            rcases List.mem_cons.mp hr with hr | hr
            · exact absurd ⟨by rw [hr] at hr1; exact hr1, by rw [hr] at hr2; exact hr2⟩ hc
            · exact hpmin r hr hr1 hr2

/-- C4: Scene::trace returns no intersection on an empty node list; returns
no intersection when no candidate hit exceeds the epsilon threshold; and
otherwise returns the intersection built (hit point, normal, material BSDF)
from a candidate whose hit parameter is the least one strictly above the
epsilon. The side conditions reflect the f64 model: every hit parameter is
below f64::MAX (the initial nearest_toi), and accepted candidates supply UVs
(otherwise trace panics, the subject of the separate UV claim). -/
theorem trace_nearest_spec (ray : Ray) (scene : Scene)
    (h1 : ∀ p ∈ ray_hits ray scene.world, p.2.toi < F64_MAX)
    (h2 : ∀ p ∈ ray_hits ray scene.world, EPS_TOI < p.2.toi → p.2.uvs.isSome) :
    (Scene.trace ⟨scene.lights, []⟩ ray = .ok none)
  ∧ ((∀ p ∈ ray_hits ray scene.world, ¬ EPS_TOI < p.2.toi) → scene.trace ray = .ok none)
  ∧ (∀ q ∈ ray_hits ray scene.world, EPS_TOI < q.2.toi →
      ∃ p ∈ ray_hits ray scene.world, EPS_TOI < p.2.toi ∧
        (∀ r ∈ ray_hits ray scene.world, EPS_TOI < r.2.toi → p.2.toi ≤ r.2.toi) ∧
        ∃ uv, p.2.uvs = some uv ∧
          scene.trace ray = .ok (some ⟨ray.orig + ray.dir * p.2.toi, p.2.normal,
            p.1.material p.2.normal uv⟩)) := by
  have hspec := get_nearest_loop_spec ray scene.world none F64_MAX 0 (0, 0)
    (fun p hp ha _hb => h2 p hp ha)
  refine ⟨rfl, ?_, ?_⟩
  · intro hnoq
    have hloop := hspec.1 (fun p hp hand => hnoq p hp hand.1)
    simp only [Scene.trace, get_nearest, hloop]
    rfl
  · intro q hq hq1
    obtain ⟨p, hp, uv, hpuv, hp1, _hp2, hpmin, hploop⟩ := hspec.2 q hq hq1 (h1 q hq)
    refine ⟨p, hp, hp1, ?_, uv, hpuv, ?_⟩
    · intro r hr hr1
      exact hpmin r hr hr1 (h1 r hr)
    · simp only [Scene.trace, get_nearest, hploop]

/-- Shared material for the C4 witness nodes. -/
def c4_mat : Vec3 ℚ → (ℚ × ℚ) → BSDF := fun nrm _ => ⟨nrm, fun v => v, []⟩

/-- C4 witness node hit at parameter 5. -/
def c4_nodeA : SceneNode := ⟨fun _ => some ⟨5, ⟨1, 0, 0⟩, some (0, 0)⟩, c4_mat⟩

/-- C4 witness node hit at parameter 2, the nearest. -/
def c4_nodeB : SceneNode := ⟨fun _ => some ⟨2, ⟨0, 1, 0⟩, some (1, 1)⟩, c4_mat⟩

/-- Two-node scene for the C4 witness. -/
def c4_scene : Scene := ⟨[], [c4_nodeA, c4_nodeB]⟩

/-- Ray for the C4 witness. -/
def c4_ray : Ray := ⟨0, ⟨0, 0, 1⟩, 0⟩

/-- The concrete hits of the C4 witness scene. -/
theorem c4_hits_eval :
    ray_hits c4_ray c4_scene.world =
      [(c4_nodeA, ⟨5, ⟨1, 0, 0⟩, some (0, 0)⟩), (c4_nodeB, ⟨2, ⟨0, 1, 0⟩, some (1, 1)⟩)] := rfl

/-- Witness for C4: on the two-node scene the winner exists (node B at
parameter 2, the least qualifying toi). -/
theorem trace_nearest_spec_witness :
    ∃ p ∈ ray_hits c4_ray c4_scene.world, EPS_TOI < p.2.toi ∧
      (∀ r ∈ ray_hits c4_ray c4_scene.world, EPS_TOI < r.2.toi → p.2.toi ≤ r.2.toi) ∧
      ∃ uv, p.2.uvs = some uv ∧
        c4_scene.trace c4_ray = .ok (some ⟨c4_ray.orig + c4_ray.dir * p.2.toi, p.2.normal,
          p.1.material p.2.normal uv⟩) :=
  (trace_nearest_spec c4_ray c4_scene
    (by
      intro p hp
      rw [c4_hits_eval] at hp
      rcases List.mem_cons.mp hp with h | hp
      · rw [h]
        norm_num [F64_MAX]
      · rcases List.mem_cons.mp hp with h | hp
        · rw [h]
          norm_num [F64_MAX]
        · simp at hp)
    (by
      intro p hp _
      rw [c4_hits_eval] at hp
      rcases List.mem_cons.mp hp with h | hp
      · rw [h]
        rfl
      · rcases List.mem_cons.mp hp with h | hp
        · rw [h]
          rfl
        · simp at hp)).2.2
    (c4_nodeB, ⟨2, ⟨0, 1, 0⟩, some (1, 1)⟩)
    (by
      rw [c4_hits_eval]
      exact List.mem_cons_of_mem _ (List.mem_cons_self _ _))
    (by norm_num [EPS_TOI])

/-- When the selection loop's accumulators correspond (the pure loop carries
some uv), a final selection without UVs forces the unwrapping loop to
panic. -/
theorem select_err_of_corr (ray : Ray) :
    ∀ (nodes : List SceneNode) (nn : Option SceneNode) (nt : ℚ) (nnorm : Vec3 ℚ) (uv : ℚ × ℚ)
      (n : SceneNode) (t : ℚ) (nm : Vec3 ℚ),
      select_nearest_loop ray nodes nn nt nnorm (some uv) = some (n, t, nm, none) →
      get_nearest_loop ray nodes nn nt nnorm uv = .error () := by
  intro nodes
  induction nodes with
  | nil =>
    intro nn nt nnorm uv n t nm h
    exfalso
    cases nn <;> simp [select_nearest_loop] at h
  | cons node rest ih =>
    intro nn nt nnorm uv n t nm h
    cases hg : node.geom ray with
    | none =>
      simp only [select_nearest_loop, hg] at h
      simp only [get_nearest_loop, hg]
      exact ih _ _ _ _ _ _ _ h
    | some isect =>
      simp only [select_nearest_loop, hg] at h
      simp only [get_nearest_loop, hg]
      by_cases hc : isect.toi > EPS_TOI ∧ isect.toi < nt
      · rw [if_pos hc] at h
        rw [if_pos hc]
        cases huv : isect.uvs with
        | none => rfl
        | some uv2 =>
          rw [huv] at h
          exact ih _ _ _ _ _ _ _ h
      · rw [if_neg hc] at h
        rw [if_neg hc]
        exact ih _ _ _ _ _ _ _ h

/-- From the initial accumulators (no accepted node yet), a final selection
without UVs forces the unwrapping loop to panic. -/
theorem select_err_of_init (ray : Ray) :
    ∀ (nodes : List SceneNode) (nt : ℚ) (nnorm : Vec3 ℚ) (uv : ℚ × ℚ)
      (n : SceneNode) (t : ℚ) (nm : Vec3 ℚ),
      select_nearest_loop ray nodes none nt nnorm none = some (n, t, nm, none) →
      get_nearest_loop ray nodes none nt nnorm uv = .error () := by
  intro nodes
  induction nodes with
  | nil =>
    intro nt nnorm uv n t nm h
    simp [select_nearest_loop] at h
  | cons node rest ih =>
    intro nt nnorm uv n t nm h
    cases hg : node.geom ray with
    | none =>
      simp only [select_nearest_loop, hg] at h
      simp only [get_nearest_loop, hg]
      exact ih _ _ _ _ _ _ h
    | some isect =>
      simp only [select_nearest_loop, hg] at h
      simp only [get_nearest_loop, hg]
      by_cases hc : isect.toi > EPS_TOI ∧ isect.toi < nt
      · rw [if_pos hc] at h
        rw [if_pos hc]
        cases huv : isect.uvs with
        | none => rfl
        | some uv2 =>
          rw [huv] at h
          exact select_err_of_corr ray rest _ _ _ _ _ _ _ h
      · rw [if_neg hc] at h
        rw [if_neg hc]
        exact ih _ _ _ _ _ _ h

/-- C10: whenever the nearest accepted hit (the candidate the get_nearest
loop keeps last) reports no UV coordinates, Scene::trace panics on the
unconditional uvs unwrap. -/
theorem trace_panics_on_missing_uvs (scene : Scene) (ray : Ray) (n : SceneNode) (t : ℚ)
    (nm : Vec3 ℚ) (h : select_nearest ray scene.world = some (n, t, nm, none)) :
    scene.trace ray = .error () := by
  have herr : get_nearest ray scene.world = .error () :=
    select_err_of_init ray scene.world F64_MAX 0 (0, 0) n t nm h
  simp only [Scene.trace, herr]

/-- Node for the C10 witness: hit at parameter 1 with no UVs (a geometry
without UV support). -/
def c10_node : SceneNode := ⟨fun _ => some ⟨1, ⟨0, 0, 1⟩, none⟩, fun nrm _ => ⟨nrm, fun v => v, []⟩⟩

/-- Scene for the C10 witness. -/
def c10_scene : Scene := ⟨[], [c10_node]⟩

/-- Ray for the C10 witness. -/
def c10_ray : Ray := ⟨0, ⟨0, 0, 1⟩, 0⟩

/-- Witness for C10: tracing the UV-less node panics. -/
theorem trace_panics_on_missing_uvs_witness : c10_scene.trace c10_ray = .error () :=
  trace_panics_on_missing_uvs c10_scene c10_ray c10_node 1 ⟨0, 0, 1⟩
    (by
      simp only [select_nearest, c10_scene, select_nearest_loop, c10_node]
      rw [if_pos (by norm_num [EPS_TOI, F64_MAX])]
      rfl)

/-- C8 counterexample: at v = +Y the code returns (tangent, binormal) =
(-Z, -X) (exactly what the in-source unit test asserts by destructuring
(vz, vx)), not the claimed (t, b) = (-X, -Z): the claimed tangent -X differs
from the returned first component. -/
theorem coordinate_system_unitY :
    (coordinate_system ⟨0, 1, 0⟩).1 = (⟨0, 0, -1⟩ : Vec3 ℝ)
  ∧ (coordinate_system ⟨0, 1, 0⟩).2 = (⟨-1, 0, 0⟩ : Vec3 ℝ)
  ∧ (coordinate_system ⟨0, 1, 0⟩).1 ≠ (⟨-1, 0, 0⟩ : Vec3 ℝ) := by
  have h1 : (coordinate_system ⟨0, 1, 0⟩).1 = (⟨0, 0, -1⟩ : Vec3 ℝ) := by
    simp only [coordinate_system]
    rw [if_neg (by norm_num)]
    norm_num [Vec3.mk.injEq, Real.sqrt_one]
  have h2 : (coordinate_system ⟨0, 1, 0⟩).2 = (⟨-1, 0, 0⟩ : Vec3 ℝ) := by
    have hb : (coordinate_system (⟨0, 1, 0⟩ : Vec3 ℝ)).2 =
        cross ⟨0, 1, 0⟩ (coordinate_system ⟨0, 1, 0⟩).1 := rfl
    rw [hb, h1]
    norm_num [cross, Vec3.mk.injEq]
  refine ⟨h1, h2, ?_⟩
  rw [h1]
  intro hcon
  have hx := congrArg Vec3.x hcon
  norm_num at hx

/-- C8 amended: for any unit vector v, coordinate_system returns (t, b) with
{t, b, v} orthonormal and right-handed in the order cross(t, b) = v; at
v = +Y the pair is t = -Z, b = -X. -/
theorem coordinate_system_orthonormal (v1 : Vec3 ℝ) (hunit : dot v1 v1 = 1) :
    dot (coordinate_system v1).1 (coordinate_system v1).1 = 1
  ∧ dot (coordinate_system v1).2 (coordinate_system v1).2 = 1
  ∧ dot v1 (coordinate_system v1).1 = 0
  ∧ dot v1 (coordinate_system v1).2 = 0
  ∧ dot (coordinate_system v1).1 (coordinate_system v1).2 = 0
  ∧ cross (coordinate_system v1).1 (coordinate_system v1).2 = v1 := by
  obtain ⟨x, y, z⟩ := v1
  have hunit2 : x * x + y * y + z * z = 1 := by simpa [dot] using hunit
  have hb : (coordinate_system ⟨x, y, z⟩).2 =
      cross ⟨x, y, z⟩ (coordinate_system ⟨x, y, z⟩).1 := rfl
  have key : dot (coordinate_system ⟨x, y, z⟩).1 (coordinate_system ⟨x, y, z⟩).1 = 1 ∧
      dot (⟨x, y, z⟩ : Vec3 ℝ) (coordinate_system ⟨x, y, z⟩).1 = 0 := by
    by_cases hxy : |x| > |y|
    · have hpos : 0 < x * x + z * z := by
        have h2 : |y| * |y| < |x| * |x| := mul_self_lt_mul_self (abs_nonneg y) hxy
        rw [abs_mul_abs_self, abs_mul_abs_self] at h2
        nlinarith [mul_self_nonneg z, mul_self_nonneg y]
      have hsqrt : Real.sqrt (x * x + z * z) * Real.sqrt (x * x + z * z) = x * x + z * z :=
        Real.mul_self_sqrt hpos.le
      have hs0 : Real.sqrt (x * x + z * z) ≠ 0 := ne_of_gt (Real.sqrt_pos.mpr hpos)
      have h1 : (coordinate_system ⟨x, y, z⟩).1 =
          ⟨-z * (1 / Real.sqrt (x * x + z * z)), 0, x * (1 / Real.sqrt (x * x + z * z))⟩ := by
        simp only [coordinate_system, if_pos hxy]
      rw [h1]
      constructor
      · simp only [dot]
        field_simp
        ring
      · simp only [dot]
        ring
    · have hxy2 : x * x ≤ y * y := by
        have h2 := mul_self_le_mul_self (abs_nonneg x) (not_lt.mp hxy)
        rwa [abs_mul_abs_self, abs_mul_abs_self] at h2
      have hpos : 0 < y * y + z * z := by
        nlinarith [mul_self_nonneg y, mul_self_nonneg z]
      have hsqrt : Real.sqrt (y * y + z * z) * Real.sqrt (y * y + z * z) = y * y + z * z :=
        Real.mul_self_sqrt hpos.le
      have hs0 : Real.sqrt (y * y + z * z) ≠ 0 := ne_of_gt (Real.sqrt_pos.mpr hpos)
      have h1 : (coordinate_system ⟨x, y, z⟩).1 =
          ⟨0, z * (1 / Real.sqrt (y * y + z * z)), -y * (1 / Real.sqrt (y * y + z * z))⟩ := by
        simp only [coordinate_system, if_neg hxy]
      rw [h1]
      constructor
      · simp only [dot]
        field_simp
        ring
      · simp only [dot]
        ring
  obtain ⟨ht1, ht0⟩ := key
  refine ⟨ht1, ?_, ht0, ?_, ?_, ?_⟩
  · rw [hb, dot_cross_cross, hunit, ht1, ht0]
    ring
  · rw [hb]
    exact dot_cross_self_left _ _
  · rw [hb]
    exact dot_cross_self_right _ _
  · rw [hb, cross_cross_self, ht1, ht0, vsmul_one, vsmul_zero_right, vsub_zero]

/-- Witness for C8 amended, at the unit vector +Y. -/
theorem coordinate_system_orthonormal_witness :
    dot (⟨0, 1, 0⟩ : Vec3 ℝ) ⟨0, 1, 0⟩ = 1
  ∧ (dot (coordinate_system ⟨0, 1, 0⟩).1 (coordinate_system ⟨0, 1, 0⟩).1 = 1
  ∧ dot (coordinate_system ⟨0, 1, 0⟩).2 (coordinate_system ⟨0, 1, 0⟩).2 = 1
  ∧ dot (⟨0, 1, 0⟩ : Vec3 ℝ) (coordinate_system ⟨0, 1, 0⟩).1 = 0
  ∧ dot (⟨0, 1, 0⟩ : Vec3 ℝ) (coordinate_system ⟨0, 1, 0⟩).2 = 0
  ∧ dot (coordinate_system ⟨0, 1, 0⟩).1 (coordinate_system ⟨0, 1, 0⟩).2 = 0
  ∧ cross (coordinate_system ⟨0, 1, 0⟩).1 (coordinate_system ⟨0, 1, 0⟩).2 = ⟨0, 1, 0⟩) :=
  ⟨by norm_num [dot], coordinate_system_orthonormal ⟨0, 1, 0⟩ (by norm_num [dot])⟩

end Scatter
